import Mathlib

/-!
Verification development for the magic-strings core: the PatternCompiler
(`buildRegex` and its helpers) and the SafeMatcher (`testRegexSafe`),
shallowly embedded from `regex-utils`.

The host regular-expression engine is external to the repository; it is
modelled as an explicit parameter (`String → String → Except String
CompiledRegex`) of `testRegexSafe`, mirroring the fact that `new RegExp`
either yields a usable matcher or throws an error carrying a message.
-/

namespace MagicStrings

/-- One criterion descriptor, as in `types/regex` (`RegexCriterion`). -/
structure RegexCriterion where
  id : String
  type : String
  value : String
  quantifier : String
deriving DecidableEq, Repr

/-- The four independent flag booleans (`RegexFlags`). -/
structure RegexFlags where
  global : Bool
  caseInsensitive : Bool
  multiline : Bool
  dotAll : Bool
deriving DecidableEq, Repr

/-- Characters that are syntactically special to the regex dialect;
the class of `str.replace(/[.*+?^S{}()|[\]\\]/g, "\\S&")` (S = dollar). -/
def specialChars : List Char :=
  ['.', '*', '+', '?', '^', '$', '{', '}', '(', ')', '|', '[', ']', '\\']

/-- `escapeRegex`: prefix every special character with a backslash. -/
def escapeRegex (s : String) : String :=
  String.join (s.data.map (fun c =>
    if specialChars.contains c then String.mk ['\\', c] else String.mk [c]))

/-- `needsGrouping(type, value)` from `regex-utils`. -/
def needsGrouping (type value : String) : Bool :=
  if ["digit", "word_char", "whitespace", "any_char"].contains type then false
  else if ["letter_upper", "letter_lower", "custom_class", "not"].contains type then false
  else if type == "group" || type == "or" then false
  else if type == "starts_with" || type == "exact" then false
  else if type == "contains" || type == "literal" || type == "ends_with" then
    decide (value.length > 1)
  else false

/-- `wrapInGroup(part, shouldGroup)`. -/
def wrapInGroup (part : String) (shouldGroup : Bool) : String :=
  if shouldGroup then "(?:" ++ part ++ ")" else part

/-- The per-criterion switch of `buildRegex`: the emitted body fragment
together with the separately tracked anchor (only `ends_with` sets one). -/
def fragment (c : RegexCriterion) : String × String :=
  if c.type == "starts_with" then ("^" ++ escapeRegex c.value, "")
  else if c.type == "ends_with" then (escapeRegex c.value, "$")
  else if c.type == "contains" then (escapeRegex c.value, "")
  else if c.type == "exact" then ("^" ++ escapeRegex c.value ++ "$", "")
  else if c.type == "digit" then ("\\d", "")
  else if c.type == "word_char" then ("\\w", "")
  else if c.type == "whitespace" then ("\\s", "")
  else if c.type == "any_char" then (".", "")
  else if c.type == "letter_upper" then ("[A-Z]", "")
  else if c.type == "letter_lower" then ("[a-z]", "")
  else if c.type == "custom_class" then ("[" ++ c.value ++ "]", "")
  else if c.type == "group" then ("(" ++ c.value ++ ")", "")
  else if c.type == "or" then
    ("(?:" ++ String.intercalate "|"
        ((c.value.splitOn ",").map (fun s => escapeRegex s.trim)) ++ ")", "")
  else if c.type == "not" then ("[^" ++ c.value ++ "]", "")
  else if c.type == "literal" then (escapeRegex c.value, "")
  else (escapeRegex c.value, "")

/-- The quantifier switch of `buildRegex` (suffix operator per repetition). -/
def quantSuffix (q : String) : String :=
  if q == "zero_or_more" then "*"
  else if q == "one_or_more" then "+"
  else if q == "optional" then "?"
  else if q == "lazy" then "*?"
  else ""

/-- Quantifier application: skipped entirely for the anchored kinds. -/
def quantPart (c : RegexCriterion) : String :=
  if ["starts_with", "ends_with", "exact"].contains c.type then ""
  else quantSuffix c.quantifier

/-- One loop iteration of `buildRegex`: group wrap (before quantifier),
then quantifier, then the anchor is appended outside everything. -/
def emitPart (hasMultiple notFirst : Bool) (c : RegexCriterion) : String :=
  let f := fragment c
  let shouldGroup := hasMultiple && notFirst && needsGrouping c.type c.value
  wrapInGroup f.1 shouldGroup ++ quantPart c ++ f.2

/-- The accumulated body of `buildRegex` (the `pattern` variable). -/
def patternOf (criteria : List RegexCriterion) : String :=
  String.join (criteria.enum.map (fun ic =>
    emitPart (decide (criteria.length > 1)) (decide (ic.1 > 0)) ic.2))

/-- The flag-letter serialization of `buildRegex` (the `flagStr` variable). -/
def flagStr (flags : RegexFlags) : String :=
  (if flags.global then "g" else "")
    ++ (if flags.caseInsensitive then "i" else "")
    ++ (if flags.multiline then "m" else "")
    ++ (if flags.dotAll then "s" else "")

/-- `buildRegex(criteria, flags)` from `regex-utils`. -/
def buildRegex (criteria : List RegexCriterion) (flags : RegexFlags) : String :=
  if criteria.length == 0 then ""
  else
    let pattern := patternOf criteria
    let fs := flagStr flags
    if fs == "" then "/" ++ pattern ++ "/" else "/" ++ pattern ++ "/" ++ fs

/-! ## SafeMatcher -/

/-- `REGEX_TIMEOUT_MS` from `lib/constants` (re-exported in particle-utils). -/
def REGEX_TIMEOUT_MS : Nat := 100

/-- The outcome record of `testRegexSafe`; `isMatch` embeds the source's
`matches` field (renamed only because that word is reserved here). -/
structure MatchOutcome where
  isMatch : Bool
  matchedParts : List String
  error : Option String
deriving DecidableEq, Repr

/-- A host-engine matcher obtained from a successful `new RegExp`:
`re.test` and the global collection pass `testString.match` (which
yields `null` or the list of matched substrings). -/
structure CompiledRegex where
  test : String → Bool
  matchAll : String → Option (List String)

/-- Characters matched by an unflagged `.` in the host dialect
(everything except the four line terminators). -/
def dotMatch (c : Char) : Bool :=
  !(c == '\n' || c == '\r' || c == Char.ofNat 8232 || c == Char.ofNat 8233)

/-- The legal flag-letter alphabet of the format-check expression. -/
def flagAlphabet : List Char := ['g', 'i', 'm', 's', 'u', 'y']

/-- Whether splitting `rest` (the text after the leading slash) at index
`j` is a valid match of `(.+)\/([gimsuy]*)S` (S = dollar): a non-empty
dot-matchable body before `j`, a slash at `j`, flag letters after. -/
def splitOk (rest : List Char) (j : Nat) : Bool :=
  decide (1 ≤ j) && (rest.take j).all dotMatch && (rest.getD j ' ' == '/')
    && (rest.drop (j + 1)).all (fun c => flagAlphabet.contains c)

/-- Backtracking search of the greedy `(.+)`: try the longest body first,
i.e. scan candidate split indices downward and keep the first success. -/
def findSplitAux (rest : List Char) : Nat → Option Nat
  | 0 => none
  | j + 1 => if splitOk rest (j + 1) then some (j + 1) else findSplitAux rest j

/-- The format check `pattern.match(/^\/(.+)\/([gimsuy]*)S/)` (S = dollar):
`none` when the pattern is not of the delimited form, otherwise the
extracted (body, flag-letters) pair of the greedy match. -/
def formatMatch (pattern : String) : Option (String × String) :=
  match pattern.data with
  | [] => none
  | c :: rest =>
    if c == '/' then
      match findSplitAux rest (rest.length - 1) with
      | some j => some (String.mk (rest.take j), String.mk (rest.drop (j + 1)))
      | none => none
    else none

/-- The fixed Malformed-delimiter message. -/
def invalidFormatMsg : String := "Invalid regex pattern format"

/-- The fixed budget-exceeded message. -/
def timeoutMsg : String :=
  "Regex took too long to execute (possible catastrophic backtracking)"

/-- `testRegexSafe(pattern, testString)`, parameterized by the host engine
`eng` (the behavior of `new RegExp(body, flags)`).

The source arms a `setTimeout` that sets a `timedOut` flag and checks the
flag at two points.  The whole call body is synchronous, and the host
event loop runs timer callbacks only after the current call returns (and
the `finally` clears the timer before that), so at both checkpoints the
flag still holds its initial value `false`; the embedding makes that
explicit while keeping both checkpoints in place. -/
def testRegexSafe (eng : String → String → Except String CompiledRegex)
    (pattern testString : String) : MatchOutcome :=
  if pattern == "" || pattern == "//" then
    { isMatch := false, matchedParts := [], error := none }
  else
    match formatMatch pattern with
    | none =>
      { isMatch := false, matchedParts := [], error := some invalidFormatMsg }
    | some (body, fl) =>
      let timedOut := false
      match eng body fl with
      | Except.error msg =>
        { isMatch := false, matchedParts := [], error := some msg }
      | Except.ok re =>
        if timedOut then
          { isMatch := false, matchedParts := [], error := some timeoutMsg }
        else
          let testMatches := re.test testString
          if timedOut then
            { isMatch := false, matchedParts := [], error := some timeoutMsg }
          else
            let globalFlags := if fl.contains 'g' then fl else fl ++ "g"
            match eng body globalFlags with
            | Except.error msg =>
              { isMatch := false, matchedParts := [], error := some msg }
            | Except.ok re2 =>
              { isMatch := testMatches
                matchedParts := (re2.matchAll testString).getD []
                error := none }

/-- A trivial host engine: accepts every body and matches nothing. -/
def noopEngine : String → String → Except String CompiledRegex :=
  fun _ _ => Except.ok { test := fun _ => false, matchAll := fun _ => none }

/-- A host engine that rejects every body with a fixed message. -/
def rejectEngine : String → String → Except String CompiledRegex :=
  fun _ _ => Except.error "Invalid regular expression: unmatched parenthesis"

/-- Spec-side description of the flag letters: the ordered sublist of
`gims` selected by the booleans that are true. -/
def flagLettersSpec (flags : RegexFlags) : String :=
  String.mk (([('g', flags.global), ('i', flags.caseInsensitive),
    ('m', flags.multiline), ('s', flags.dotAll)]).filterMap
      (fun p => if p.2 then some p.1 else none))

/-! ## Helper lemmas -/

theorem needsGrouping_other (t v : String) (h1 : t ≠ "contains")
    (h2 : t ≠ "literal") (h3 : t ≠ "ends_with") : needsGrouping t v = false := by
  unfold needsGrouping
  split_ifs with a b c d e
  · rfl
  · rfl
  · rfl
  · rfl
  · exfalso
    simp only [Bool.or_eq_true, beq_iff_eq] at e
    rcases e with e | e | e <;> simp_all
  · rfl

theorem emitPart_grouped (c : RegexCriterion)
    (h : needsGrouping c.type c.value = true) :
    emitPart true true c
      = "(?:" ++ (fragment c).1 ++ ")" ++ quantPart c ++ (fragment c).2 := by
  simp [emitPart, wrapInGroup, h]

theorem emitPart_ungrouped (hm hn : Bool) (c : RegexCriterion)
    (h : needsGrouping c.type c.value = false) :
    emitPart hm hn c = (fragment c).1 ++ quantPart c ++ (fragment c).2 := by
  simp [emitPart, wrapInGroup, h]

theorem emitPart_first (hm : Bool) (c : RegexCriterion) :
    emitPart hm false c = (fragment c).1 ++ quantPart c ++ (fragment c).2 := by
  simp [emitPart, wrapInGroup]

theorem patternOf_single (c : RegexCriterion) :
    patternOf [c] = emitPart false false c := by
  simp [patternOf, String.join]

theorem buildRegex_eq (criteria : List RegexCriterion) (flags : RegexFlags)
    (h : criteria ≠ []) :
    buildRegex criteria flags = "/" ++ patternOf criteria ++ "/" ++ flagStr flags := by
  have hlen : (criteria.length == 0) = false := by
    simp [List.length_eq_zero, h]
  unfold buildRegex
  rw [hlen]
  simp only [Bool.false_eq_true, if_false]
  split
  next hf =>
    have he : flagStr flags = "" := eq_of_beq hf
    rw [he, String.append_empty]
  next => rfl

theorem flagStr_spec (f : RegexFlags) : flagStr f = flagLettersSpec f := by
  obtain ⟨g, i, m, s⟩ := f
  cases g <;> cases i <;> cases m <;> cases s <;> rfl

theorem flagStr_alphabet (f : RegexFlags) :
    (flagStr f).data.all (fun c => flagAlphabet.contains c) = true := by
  obtain ⟨g, i, m, s⟩ := f
  cases g <;> cases i <;> cases m <;> cases s <;> rfl

theorem splitOk_zero (rest : List Char) : splitOk rest 0 = false := by
  simp [splitOk]

theorem findSplitAux_isSome (rest : List Char) (n j : Nat) (hj : j ≤ n)
    (h : splitOk rest j = true) : (findSplitAux rest n).isSome = true := by
  induction n with
  | zero =>
    have : j = 0 := Nat.le_zero.mp hj
    subst this
    rw [splitOk_zero] at h
    exact absurd h (by simp)
  | succ n ih =>
    unfold findSplitAux
    by_cases hs : splitOk rest (n + 1) = true
    · rw [if_pos hs]; rfl
    · rw [if_neg hs]
      rcases Nat.lt_or_ge j (n + 1) with hlt | hge
      · exact ih (Nat.lt_succ_iff.mp hlt)
      · have : j = n + 1 := Nat.le_antisymm hj hge
        subst this
        exact absurd h hs

theorem findSplitAux_none (rest : List Char) (h : ∀ j, splitOk rest j = false)
    (n : Nat) : findSplitAux rest n = none := by
  induction n with
  | zero => rfl
  | succ n ih =>
    unfold findSplitAux
    rw [h (n + 1)]
    simpa using ih

theorem findSplitAux_unique (rest : List Char) (j₀ : Nat)
    (hok : splitOk rest j₀ = true) (huniq : ∀ j, splitOk rest j = true → j = j₀)
    (n : Nat) (hle : j₀ ≤ n) : findSplitAux rest n = some j₀ := by
  induction n with
  | zero =>
    have : j₀ = 0 := Nat.le_zero.mp hle
    subst this
    rw [splitOk_zero] at hok
    exact absurd hok (by simp)
  | succ n ih =>
    unfold findSplitAux
    by_cases hs : splitOk rest (n + 1) = true
    · rw [if_pos hs, huniq _ hs]
    · rw [if_neg hs]
      have hne : j₀ ≠ n + 1 := fun e => hs (e ▸ hok)
      exact ih (by omega)

theorem delim_data (body fl : String) :
    ("/" ++ body ++ "/" ++ fl).data = '/' :: (body.data ++ '/' :: fl.data) := by
  simp [String.data_append]

theorem splitOk_delim (body fl : String) (hb : body.data ≠ [])
    (hdot : body.data.all dotMatch = true)
    (hfl : fl.data.all (fun c => flagAlphabet.contains c) = true) :
    splitOk (body.data ++ '/' :: fl.data) body.data.length = true := by
  unfold splitOk
  have h1 : 1 ≤ body.data.length := by
    cases hd : body.data with
    | nil => exact absurd hd hb
    | cons a l => simp
  have h2 : (body.data ++ '/' :: fl.data).take body.data.length = body.data :=
    List.take_left _ _
  have h3 : (body.data ++ '/' :: fl.data).getD body.data.length ' ' = '/' := by
    rw [List.getD_eq_getElem?_getD,
      List.getElem?_append_right (Nat.le_refl _)]
    simp
  have h4 : (body.data ++ '/' :: fl.data).drop (body.data.length + 1) = fl.data := by
    rw [List.append_cons]
    have hlen : (body.data ++ ['/']).length = body.data.length + 1 := by simp
    rw [← hlen, List.drop_left]
  rw [h2, h3, h4]
  have h1' : 1 ≤ body.length := h1
  have hfl' : ∀ x ∈ fl.data, x ∈ flagAlphabet := by simpa using hfl
  have hdot' : ∀ x ∈ body.data, dotMatch x = true := by simpa using hdot
  simp only [Bool.and_eq_true, decide_eq_true_eq, beq_self_eq_true, List.all_eq_true,
    true_and, and_true]
  exact ⟨⟨h1, hdot'⟩, by simpa using hfl'⟩

theorem formatMatch_delim_isSome (body fl : String) (hb : body ≠ "")
    (hdot : body.data.all dotMatch = true)
    (hfl : fl.data.all (fun c => flagAlphabet.contains c) = true) :
    (formatMatch ("/" ++ body ++ "/" ++ fl)).isSome = true := by
  have hbd : body.data ≠ [] := fun h => hb (String.ext h)
  unfold formatMatch
  rw [delim_data]
  simp only [beq_self_eq_true, if_true]
  have hlen : (body.data ++ '/' :: fl.data).length
      = body.data.length + 1 + fl.data.length := by simp; omega
  have hle : body.data.length ≤ (body.data ++ '/' :: fl.data).length - 1 := by
    rw [hlen]; omega
  have := findSplitAux_isSome (body.data ++ '/' :: fl.data) _ _ hle
    (splitOk_delim body fl hbd hdot hfl)
  obtain ⟨j, hj⟩ := Option.isSome_iff_exists.mp this
  rw [hj]
  rfl

theorem testRegexSafe_malformed (eng : String → String → Except String CompiledRegex)
    (p s : String) (h1 : p ≠ "") (h2 : p ≠ "//") (hfm : formatMatch p = none) :
    testRegexSafe eng p s = ⟨false, [], some invalidFormatMsg⟩ := by
  have hb1 : (p == "") = false := beq_eq_false_iff_ne.mpr h1
  have hb2 : (p == "//") = false := beq_eq_false_iff_ne.mpr h2
  unfold testRegexSafe
  rw [hb1, hb2, hfm]
  simp

theorem testRegexSafe_format_some (eng : String → String → Except String CompiledRegex)
    (p s b f : String) (h1 : p ≠ "") (h2 : p ≠ "//")
    (hfm : formatMatch p = some (b, f)) :
    testRegexSafe eng p s =
      (match eng b f with
      | Except.error msg => ⟨false, [], some msg⟩
      | Except.ok re =>
        match eng b (if f.contains 'g' then f else f ++ "g") with
        | Except.error msg => ⟨false, [], some msg⟩
        | Except.ok re2 => ⟨re.test s, (re2.matchAll s).getD [], none⟩) := by
  have hb1 : (p == "") = false := beq_eq_false_iff_ne.mpr h1
  have hb2 : (p == "//") = false := beq_eq_false_iff_ne.mpr h2
  unfold testRegexSafe
  rw [hb1, hb2, hfm]
  rcases he : eng b f with msg | re
  · simp [he]
  · rcases he2 : eng b (if f.contains 'g' then f else f ++ "g") with msg | re2 <;>
      simp [he, he2]

theorem testRegexSafe_error_cases (eng : String → String → Except String CompiledRegex)
    (p s : String) :
    (testRegexSafe eng p s).error = none
    ∨ (testRegexSafe eng p s).error = some invalidFormatMsg
    ∨ ∃ b f msg, eng b f = Except.error msg
        ∧ (testRegexSafe eng p s).error = some msg := by
  by_cases h1 : p = ""
  · subst h1; left; rfl
  by_cases h2 : p = "//"
  · subst h2; left; rfl
  rcases hfm : formatMatch p with _ | ⟨b, f⟩
  · right; left
    rw [testRegexSafe_malformed eng p s h1 h2 hfm]
  · rw [testRegexSafe_format_some eng p s b f h1 h2 hfm]
    rcases he : eng b f with msg | re
    · right; right; exact ⟨b, f, msg, he, rfl⟩
    · rcases he2 : eng b (if f.contains 'g' then f else f ++ "g") with msg | re2
      · right; right; exact ⟨b, _, msg, he2, rfl⟩
      · left; rfl

theorem alphabet_no_slash (fl : List Char)
    (h : fl.all (fun c => flagAlphabet.contains c) = true) :
    fl.contains '/' = false := by
  by_contra hc
  have hc' : fl.contains '/' = true := by
    revert hc; cases fl.contains '/' <;> simp
  have hm : '/' ∈ fl := List.elem_iff.mp hc'
  have := (List.all_eq_true.mp h) _ hm
  simp [flagAlphabet] at this

theorem splitOk_aslash_two (fl : List Char) (hs : fl.contains '/' = false)
    (k : Nat) : splitOk ('a' :: '/' :: fl) (k + 2) = false := by
  have hne : (fl.getD k ' ' == '/') = false := by
    rw [List.getD_eq_getElem?_getD]
    rcases hq : fl[k]? with _ | c
    · rfl
    · obtain ⟨hlt, he⟩ := List.getElem?_eq_some.mp hq
      have hcmem : c ∈ fl := he ▸ List.getElem_mem hlt
      have hcne : (c == '/') = false := by
        apply beq_eq_false_iff_ne.mpr
        intro e
        subst e
        rw [show fl.contains '/' = List.elem '/' fl from rfl,
          List.elem_iff.mpr hcmem] at hs
        simp at hs
      simp [hcne]
  unfold splitOk
  have hg : ('a' :: '/' :: fl).getD (k + 2) ' ' = fl.getD k ' ' := rfl
  rw [hg, hne]
  simp

theorem data_a_slash (fl : String) :
    ("/a/" ++ fl).data = '/' :: 'a' :: '/' :: fl.data := by
  rw [String.data_append]
  rfl

theorem splitOk_aslash_one (fl : List Char)
    (hfl : fl.all (fun c => flagAlphabet.contains c) = true) :
    splitOk ('a' :: '/' :: fl) 1 = true := by
  unfold splitOk
  have h2 : (('a' :: '/' :: fl).take 1).all dotMatch = true := rfl
  have h3 : (('a' :: '/' :: fl).getD 1 ' ' == '/') = true := rfl
  have h4 : ('a' :: '/' :: fl).drop 2 = fl := rfl
  rw [h2, h3, h4, hfl]
  rfl

theorem formatMatch_a_flags (fl : String)
    (hfl : fl.data.all (fun c => flagAlphabet.contains c) = true) :
    formatMatch ("/a/" ++ fl) = some ("a", fl) := by
  unfold formatMatch
  rw [data_a_slash]
  simp only [beq_self_eq_true, if_true]
  have huniq : ∀ j, splitOk ('a' :: '/' :: fl.data) j = true → j = 1 := by
    intro j hj
    match j with
    | 0 => rw [splitOk_zero] at hj; exact absurd hj (by simp)
    | 1 => rfl
    | k + 2 =>
      rw [splitOk_aslash_two fl.data (alphabet_no_slash fl.data hfl) k] at hj
      exact absurd hj (by simp)
  have hlen : ('a' :: '/' :: fl.data).length - 1 = fl.data.length + 1 := by simp
  rw [hlen, findSplitAux_unique ('a' :: '/' :: fl.data) 1
    (splitOk_aslash_one fl.data hfl) huniq (fl.data.length + 1) (by omega)]
  rfl

theorem formatMatch_bad_flags (fl : String)
    (hex : ∃ c ∈ fl.data, flagAlphabet.contains c = false)
    (hs : fl.data.contains '/' = false) :
    formatMatch ("/a/" ++ fl) = none := by
  unfold formatMatch
  rw [data_a_slash]
  simp only [beq_self_eq_true, if_true]
  have hall : ∀ j, splitOk ('a' :: '/' :: fl.data) j = false := by
    intro j
    match j with
    | 0 => exact splitOk_zero _
    | 1 =>
      obtain ⟨c, hc, hcf⟩ := hex
      have hflfalse : fl.data.all (fun c => flagAlphabet.contains c) = false := by
        cases hd : fl.data.all (fun c => flagAlphabet.contains c) with
        | false => rfl
        | true => rw [(List.all_eq_true.mp hd) _ hc] at hcf; exact absurd hcf (by simp)
      unfold splitOk
      have h4 : ('a' :: '/' :: fl.data).drop 2 = fl.data := rfl
      rw [h4, hflfalse]
      simp
    | k + 2 => exact splitOk_aslash_two fl.data hs k
  rw [findSplitAux_none ('a' :: '/' :: fl.data) hall _]

/-! ## Claim theorems -/

/-- C3: Grouping rule — for a descriptor that is not first in a multi-descriptor
list, the kinds contains, literal and ends_with with a value longer than one
character are exactly the auto-grouped ones, the non-capturing wrapper is laid
down before the quantifier suffix, single-character values of those kinds stay
ungrouped, no other kind is ever auto-grouped, and the two scenario
compilations hold. -/
theorem grouping_rule :
    (∀ v : String, needsGrouping "contains" v = decide (1 < v.length))
    ∧ (∀ v : String, needsGrouping "literal" v = decide (1 < v.length))
    ∧ (∀ v : String, needsGrouping "ends_with" v = decide (1 < v.length))
    ∧ (∀ t v : String, t ≠ "contains" → t ≠ "literal" → t ≠ "ends_with" →
        needsGrouping t v = false)
    ∧ (∀ c : RegexCriterion, needsGrouping c.type c.value = true →
        emitPart true true c
          = "(?:" ++ (fragment c).1 ++ ")" ++ quantPart c ++ (fragment c).2)
    ∧ (∀ c : RegexCriterion, needsGrouping c.type c.value = false →
        emitPart true true c = (fragment c).1 ++ quantPart c ++ (fragment c).2)
    ∧ buildRegex [⟨"1", "starts_with", "A", "one"⟩, ⟨"2", "contains", "BB", "one_or_more"⟩]
        ⟨false, false, false, false⟩ = "/^A(?:BB)+/"
    ∧ buildRegex [⟨"1", "starts_with", "A", "one"⟩, ⟨"2", "contains", "B", "one"⟩]
        ⟨false, false, false, false⟩ = "/^AB/" :=
  ⟨fun _ => rfl, fun _ => rfl, fun _ => rfl, needsGrouping_other,
   emitPart_grouped, emitPart_ungrouped true true, rfl, rfl⟩

theorem grouping_rule_witness :
    needsGrouping "contains" "BB" = decide (1 < ("BB" : String).length)
    ∧ needsGrouping "digit" "BB" = false
    ∧ emitPart true true ⟨"2", "contains", "BB", "one_or_more"⟩
        = "(?:" ++ (fragment ⟨"2", "contains", "BB", "one_or_more"⟩).1 ++ ")"
          ++ quantPart ⟨"2", "contains", "BB", "one_or_more"⟩
          ++ (fragment ⟨"2", "contains", "BB", "one_or_more"⟩).2 :=
  ⟨grouping_rule.1 "BB",
   grouping_rule.2.2.2.1 "digit" "BB" (by decide) (by decide) (by decide),
   grouping_rule.2.2.2.2.1 ⟨"2", "contains", "BB", "one_or_more"⟩ (by decide)⟩

/-- C4: the end anchor of an ends_with descriptor is appended outside the
non-capturing group wrapper, after the fragment is finalized; in particular
contains AAA followed by ends_with BBB compiles to /AAA(?:BBB)$/. -/
theorem ends_with_anchor_outside_group :
    (∀ c : RegexCriterion, c.type = "ends_with" → 1 < c.value.length →
        emitPart true true c = "(?:" ++ escapeRegex c.value ++ ")" ++ "$")
    ∧ (∀ c : RegexCriterion, c.type = "ends_with" →
        emitPart true true c
          = wrapInGroup (escapeRegex c.value) (needsGrouping "ends_with" c.value) ++ "$")
    ∧ buildRegex [⟨"1", "contains", "AAA", "one"⟩, ⟨"2", "ends_with", "BBB", "one"⟩]
        ⟨false, false, false, false⟩ = "/AAA(?:BBB)$/" := by
  have hfrag : ∀ c : RegexCriterion, c.type = "ends_with" →
      fragment c = (escapeRegex c.value, "$") := by
    intro c ht
    unfold fragment
    rw [ht]
    rfl
  have hquant : ∀ c : RegexCriterion, c.type = "ends_with" → quantPart c = "" := by
    intro c ht
    unfold quantPart
    rw [ht]
    rfl
  refine ⟨?_, ?_, rfl⟩
  · intro c ht hv
    have hg : needsGrouping c.type c.value = true := by
      rw [ht]
      rw [show needsGrouping "ends_with" c.value = decide (1 < c.value.length) from rfl]
      exact decide_eq_true hv
    rw [emitPart_grouped c hg, hfrag c ht, hquant c ht]
    rw [String.append_empty]
  · intro c ht
    cases hg : needsGrouping "ends_with" c.value with
    | true =>
      have hg' : needsGrouping c.type c.value = true := by rw [ht]; exact hg
      rw [emitPart_grouped c hg', hfrag c ht, hquant c ht, wrapInGroup]
      rw [if_pos rfl, String.append_empty]
    | false =>
      have hg' : needsGrouping c.type c.value = false := by rw [ht]; exact hg
      rw [emitPart_ungrouped true true c hg', hfrag c ht, hquant c ht, wrapInGroup]
      rw [if_neg (by simp), String.append_empty]

theorem ends_with_anchor_outside_group_witness :
    emitPart true true ⟨"2", "ends_with", "BBB", "one"⟩
      = "(?:" ++ escapeRegex "BBB" ++ ")" ++ "$" :=
  ends_with_anchor_outside_group.1 ⟨"2", "ends_with", "BBB", "one"⟩ rfl (by decide)

/-- C7: flag serialization — the emitted flag letters are exactly the ordered
g, i, m, s sublist selected by the booleans that are true, and a non-empty
descriptor list always compiles to slash-body-slash followed by those letters
(no trailing letters at all when no flag is set). -/
theorem flag_serialization :
    (∀ f : RegexFlags, flagStr f = flagLettersSpec f)
    ∧ (∀ criteria f, criteria ≠ [] →
        buildRegex criteria f = "/" ++ patternOf criteria ++ "/" ++ flagStr f)
    ∧ (∀ criteria, criteria ≠ [] →
        buildRegex criteria ⟨false, false, false, false⟩
          = "/" ++ patternOf criteria ++ "/") := by
  refine ⟨flagStr_spec, buildRegex_eq, ?_⟩
  intro criteria h
  rw [buildRegex_eq criteria _ h,
    show flagStr ⟨false, false, false, false⟩ = "" from rfl, String.append_empty]

theorem flag_serialization_witness :
    flagStr ⟨true, true, true, true⟩ = flagLettersSpec ⟨true, true, true, true⟩
    ∧ buildRegex [⟨"1", "contains", "test", "one"⟩] ⟨true, true, true, true⟩
        = "/" ++ patternOf [⟨"1", "contains", "test", "one"⟩] ++ "/"
          ++ flagStr ⟨true, true, true, true⟩ :=
  ⟨flag_serialization.1 ⟨true, true, true, true⟩,
   flag_serialization.2.1 [⟨"1", "contains", "test", "one"⟩] ⟨true, true, true, true⟩
     (by simp)⟩

/-- C8: the empty descriptor list compiles to the empty-string sentinel for
any flags, and every non-empty descriptor list compiles to a non-empty string
beginning with the slash delimiter. -/
theorem empty_input_sentinel :
    (∀ f : RegexFlags, buildRegex [] f = "")
    ∧ (∀ criteria f, criteria ≠ [] →
        (∃ r, buildRegex criteria f = "/" ++ r) ∧ buildRegex criteria f ≠ "") := by
  constructor
  · intro f
    rfl
  · intro criteria f h
    rw [buildRegex_eq criteria f h]
    constructor
    · exact ⟨patternOf criteria ++ ("/" ++ flagStr f), by
        rw [← String.append_assoc, ← String.append_assoc]⟩
    · intro he
      have hlen := congrArg String.length he
      simp only [String.length_append] at hlen
      rw [show ("/" : String).length = 1 from rfl,
        show ("" : String).length = 0 from rfl] at hlen
      omega

theorem empty_input_sentinel_witness :
    buildRegex [] ⟨true, false, true, false⟩ = ""
    ∧ (∃ r, buildRegex [⟨"1", "digit", "", "one"⟩] ⟨false, false, false, false⟩
        = "/" ++ r)
    ∧ buildRegex [⟨"1", "digit", "", "one"⟩] ⟨false, false, false, false⟩ ≠ "" :=
  ⟨empty_input_sentinel.1 ⟨true, false, true, false⟩,
   (empty_input_sentinel.2 [⟨"1", "digit", "", "one"⟩] ⟨false, false, false, false⟩
     (by simp)).1,
   (empty_input_sentinel.2 [⟨"1", "digit", "", "one"⟩] ⟨false, false, false, false⟩
     (by simp)).2⟩

/-- C9: with a single descriptor no auto-grouping ever happens, so the body
is the bare fragment plus quantifier plus anchor; in particular a lone
multi-character contains with one_or_more compiles to /BB+/, the quantifier
binding only to the last character. -/
theorem single_descriptor_no_grouping :
    (∀ c : RegexCriterion,
        patternOf [c] = (fragment c).1 ++ quantPart c ++ (fragment c).2)
    ∧ buildRegex [⟨"1", "contains", "BB", "one_or_more"⟩] ⟨false, false, false, false⟩
        = "/BB+/" := by
  constructor
  · intro c
    rw [patternOf_single c, emitPart_first false c]
  · rfl

theorem single_descriptor_no_grouping_witness :
    patternOf [⟨"9", "literal", "XY", "optional"⟩]
      = (fragment ⟨"9", "literal", "XY", "optional"⟩).1
        ++ quantPart ⟨"9", "literal", "XY", "optional"⟩
        ++ (fragment ⟨"9", "literal", "XY", "optional"⟩).2 :=
  single_descriptor_no_grouping.1 ⟨"9", "literal", "XY", "optional"⟩

/-- C5: format-validation dichotomy of the matcher — the empty pattern and
the degenerate // both short-circuit to a quiet non-match with no failure
descriptor, while every other pattern rejected by the delimited-form check
yields the fixed Malformed-delimiter message with no match and no parts. -/
theorem format_validation_dichotomy :
    (∀ eng s, testRegexSafe eng "" s = ⟨false, [], none⟩)
    ∧ (∀ eng s, testRegexSafe eng "//" s = ⟨false, [], none⟩)
    ∧ (∀ eng p s, p ≠ "" → p ≠ "//" → formatMatch p = none →
        testRegexSafe eng p s = ⟨false, [], some invalidFormatMsg⟩)
    ∧ (∀ eng s, testRegexSafe eng "invalid" s = ⟨false, [], some invalidFormatMsg⟩) := by
  refine ⟨fun eng s => rfl, fun eng s => rfl, testRegexSafe_malformed, fun eng s => ?_⟩
  exact testRegexSafe_malformed eng "invalid" s (by decide) (by decide) rfl

theorem format_validation_dichotomy_witness :
    testRegexSafe noopEngine "" "anything" = ⟨false, [], none⟩
    ∧ testRegexSafe noopEngine "//" "anything" = ⟨false, [], none⟩
    ∧ testRegexSafe noopEngine "not-delimited" "anything"
        = ⟨false, [], some invalidFormatMsg⟩ :=
  ⟨format_validation_dichotomy.1 noopEngine "anything",
   format_validation_dichotomy.2.1 noopEngine "anything",
   format_validation_dichotomy.2.2.1 noopEngine "not-delimited" "anything"
     (by decide) (by decide) rfl⟩

/-- C6: the matcher is total (its failure descriptor is always either absent,
the fixed Malformed-delimiter message, or a message produced by the engine
itself) and an engine rejection of the extracted body surfaces the engine's
own message verbatim with no match and no parts, on either compilation. -/
theorem safe_matcher_totality_and_engine_errors :
    (∀ eng p s, (testRegexSafe eng p s).error = none
        ∨ (testRegexSafe eng p s).error = some invalidFormatMsg
        ∨ ∃ b f msg, eng b f = Except.error msg
            ∧ (testRegexSafe eng p s).error = some msg)
    ∧ (∀ eng p s b f msg, p ≠ "" → p ≠ "//" → formatMatch p = some (b, f) →
        eng b f = Except.error msg →
        testRegexSafe eng p s = ⟨false, [], some msg⟩)
    ∧ (∀ eng p s b f msg re, p ≠ "" → p ≠ "//" → formatMatch p = some (b, f) →
        eng b f = Except.ok re →
        eng b (if f.contains 'g' then f else f ++ "g") = Except.error msg →
        testRegexSafe eng p s = ⟨false, [], some msg⟩) := by
  refine ⟨testRegexSafe_error_cases, ?_, ?_⟩
  · intro eng p s b f msg h1 h2 hfm he
    rw [testRegexSafe_format_some eng p s b f h1 h2 hfm, he]
  · intro eng p s b f msg re h1 h2 hfm he he2
    rw [testRegexSafe_format_some eng p s b f h1 h2 hfm, he, he2]

theorem safe_matcher_totality_witness :
    testRegexSafe rejectEngine "/a/" "abc"
      = ⟨false, [], some "Invalid regular expression: unmatched parenthesis"⟩ :=
  safe_matcher_totality_and_engine_errors.2.1 rejectEngine "/a/" "abc" "a" ""
    "Invalid regular expression: unmatched parenthesis"
    (by decide) (by decide) rfl rfl

/-- C2: the budget-exceeded branch of the matcher is unreachable — because
the call body is synchronous and the host event loop cannot run the timer
callback during it, no outcome ever carries the budget-exceeded message
unless the engine itself produced that exact text. -/
theorem budget_branch_unreachable (eng : String → String → Except String CompiledRegex)
    (p s : String)
    (heng : ∀ b f msg, eng b f = Except.error msg → msg ≠ timeoutMsg) :
    (testRegexSafe eng p s).error ≠ some timeoutMsg := by
  rcases testRegexSafe_error_cases eng p s with h | h | ⟨b, f, msg, he, h⟩
  · rw [h]
    simp
  · rw [h]
    intro hx
    exact absurd (Option.some.inj hx) (by decide)
  · rw [h]
    intro hx
    exact heng b f msg he (Option.some.inj hx)

theorem budget_branch_unreachable_witness :
    (testRegexSafe noopEngine "/(a+)+$/" "aaaaaaaaaaaaaaaaaaaaab").error
      ≠ some timeoutMsg :=
  budget_branch_unreachable noopEngine "/(a+)+$/" "aaaaaaaaaaaaaaaaaaaaab"
    (fun b f msg h => by simp [noopEngine] at h)

/-- C10: the delimited-form check accepts exactly the flag letters g, i, m,
s, u, y — a pattern like /a/uy passes format validation and proceeds to the
engine, while trailing letters containing a character outside that alphabet
are reported as Malformed-delimiter. -/
theorem flag_alphabet_gimsuy :
    (∀ fl : String, fl.data.all (fun c => flagAlphabet.contains c) = true →
        formatMatch ("/a/" ++ fl) = some ("a", fl))
    ∧ formatMatch "/a/uy" = some ("a", "uy")
    ∧ (∀ eng s, (∀ b f msg, eng b f = Except.error msg → msg ≠ invalidFormatMsg) →
        (testRegexSafe eng "/a/uy" s).error ≠ some invalidFormatMsg)
    ∧ (∀ fl : String, (∃ c ∈ fl.data, flagAlphabet.contains c = false) →
        fl.data.contains '/' = false →
        ∀ eng s, testRegexSafe eng ("/a/" ++ fl) s
          = ⟨false, [], some invalidFormatMsg⟩) := by
  refine ⟨formatMatch_a_flags, rfl, ?_, ?_⟩
  · intro eng s heng
    rw [testRegexSafe_format_some eng "/a/uy" s "a" "uy" (by decide) (by decide) rfl]
    rcases he : eng "a" "uy" with msg | re
    · exact fun hx => heng "a" "uy" msg he (Option.some.inj hx)
    · rcases he2 : eng "a" (if ("uy" : String).contains 'g' then "uy" else "uy" ++ "g")
        with msg | re2
      · exact fun hx => heng "a" _ msg he2 (Option.some.inj hx)
      · exact fun hx => Option.noConfusion hx
  · intro fl hex hs eng s
    have hlen3 : ("/a/" ++ fl).length = 3 + fl.length := by
      rw [String.length_append]
      rfl
    apply testRegexSafe_malformed eng _ s ?h1 ?h2 (formatMatch_bad_flags fl hex hs)
    case h1 =>
      intro he
      have := congrArg String.length he
      rw [hlen3, show ("" : String).length = 0 from rfl] at this
      omega
    case h2 =>
      intro he
      have := congrArg String.length he
      rw [hlen3, show ("//" : String).length = 2 from rfl] at this
      omega

theorem flag_alphabet_gimsuy_witness :
    formatMatch ("/a/" ++ "uy") = some ("a", "uy")
    ∧ (testRegexSafe noopEngine "/a/uy" "abc").error ≠ some invalidFormatMsg
    ∧ testRegexSafe noopEngine ("/a/" ++ "z!") "abc"
        = ⟨false, [], some invalidFormatMsg⟩ :=
  ⟨flag_alphabet_gimsuy.1 "uy" (by decide),
   flag_alphabet_gimsuy.2.2.1 noopEngine "abc"
     (fun b f msg h => by simp [noopEngine] at h),
   flag_alphabet_gimsuy.2.2.2 "z!" ⟨'z', by decide, by decide⟩ (by decide)
     noopEngine "abc"⟩

/-- C1 counterexample: two compiler outputs the matcher rejects as
Malformed — an empty body with a flag set compiles to //g, and a body
carrying a newline compiles to a pattern the dot-based delimited-form
check cannot match; both are non-empty and both are reported with the
fixed Malformed-delimiter message. -/
theorem roundtrip_counterexample :
    buildRegex [⟨"1", "contains", "", "one"⟩] ⟨true, false, false, false⟩ = "//g"
    ∧ testRegexSafe noopEngine "//g" "sample" = ⟨false, [], some invalidFormatMsg⟩
    ∧ buildRegex [⟨"2", "contains", "a\nb", "one"⟩] ⟨false, false, false, false⟩
        = "/a\nb/"
    ∧ testRegexSafe noopEngine "/a\nb/" "sample"
        = ⟨false, [], some invalidFormatMsg⟩ :=
  ⟨rfl, rfl, rfl, rfl⟩

/-- C1 (amended): the round-trip holds whenever the compiled body is
non-empty and contains no line-terminator characters — then the compiler
output passes the matcher's delimited-form check, and the outcome never
carries the Malformed-delimiter message (for a host engine whose own error
messages differ from that fixed text). -/
theorem roundtrip_amended (criteria : List RegexCriterion) (flags : RegexFlags)
    (eng : String → String → Except String CompiledRegex) (subject : String)
    (hne : criteria ≠ [])
    (hbody : patternOf criteria ≠ "")
    (hdot : (patternOf criteria).data.all dotMatch = true)
    (heng : ∀ b f msg, eng b f = Except.error msg → msg ≠ invalidFormatMsg) :
    (testRegexSafe eng (buildRegex criteria flags) subject).error
      ≠ some invalidFormatMsg := by
  rw [buildRegex_eq criteria flags hne]
  have hsome := formatMatch_delim_isSome (patternOf criteria) (flagStr flags)
    hbody hdot (flagStr_alphabet flags)
  obtain ⟨⟨b, f⟩, hfm⟩ := Option.isSome_iff_exists.mp hsome
  have hblen : 1 ≤ (patternOf criteria).length := by
    rcases Nat.eq_zero_or_pos (patternOf criteria).length with h0 | h1
    · exact absurd (String.ext (List.length_eq_zero.mp h0)) hbody
    · exact h1
  have hplen : ("/" ++ patternOf criteria ++ "/" ++ flagStr flags).length
      = (patternOf criteria).length + (flagStr flags).length + 2 := by
    simp only [String.length_append]
    rw [show ("/" : String).length = 1 from rfl]
    omega
  have h1 : ("/" ++ patternOf criteria ++ "/" ++ flagStr flags) ≠ "" := by
    intro he
    have := congrArg String.length he
    rw [hplen, show ("" : String).length = 0 from rfl] at this
    omega
  have h2 : ("/" ++ patternOf criteria ++ "/" ++ flagStr flags) ≠ "//" := by
    intro he
    have := congrArg String.length he
    rw [hplen, show ("//" : String).length = 2 from rfl] at this
    omega
  rw [testRegexSafe_format_some eng _ subject b f h1 h2 hfm]
  rcases he : eng b f with msg | re
  · exact fun hx => heng b f msg he (Option.some.inj hx)
  · rcases he2 : eng b (if f.contains 'g' then f else f ++ "g") with msg | re2
    · exact fun hx => heng b _ msg he2 (Option.some.inj hx)
    · exact fun hx => Option.noConfusion hx

theorem roundtrip_amended_witness :
    (testRegexSafe noopEngine
        (buildRegex [⟨"1", "contains", "abc", "one"⟩] ⟨true, false, false, false⟩)
        "zz").error ≠ some invalidFormatMsg :=
  roundtrip_amended [⟨"1", "contains", "abc", "one"⟩] ⟨true, false, false, false⟩
    noopEngine "zz" (by decide) (by decide) (by decide)
    (fun b f msg h => by simp [noopEngine] at h)

end MagicStrings
